import Mathlib

/-!
Shallow embedding of the git-sanity-checker rule engine
(`git-sanity-checker.go`).  Go strings are modelled as `List Char`
(`Str`), raw file bytes as `List Nat`.  Fatal errors (`fatal`, Go
panics) are modelled with `Option`.  Rule check functions return a
`Str`: the empty string means "pass", a non-empty string is the
diagnostic text, exactly as in the Go code.
-/

abbrev Str := List Char

/-- Go `strings.Index(line, " ")`: index of the first space, `none` for Go's -1. -/
def strIndexSpace : Str → Option Nat
  | [] => none
  | c :: rest =>
    if c = ' ' then some 0
    else (strIndexSpace rest).map (· + 1)

/-- Go `strings.IndexRune(s, c)`. -/
def strIndexRune (s : Str) (c : Char) : Option Nat :=
  match s with
  | [] => none
  | a :: rest =>
    if a = c then some 0
    else (strIndexRune rest c).map (· + 1)

/-- Go `strings.LastIndex(s, "/")` specialised to a one-character pattern. -/
def strLastIndexRune : Str → Char → Option Nat
  | [], _ => none
  | a :: rest, c =>
    match strLastIndexRune rest c with
    | some i => some (i + 1)
    | none => if a = c then some 0 else none

/-- Go `strings.Trim(line, " \t")`. -/
def isSpaceOrTab (c : Char) : Bool := c == ' ' || c == '\t'

def trimSpaceTab (s : Str) : Str :=
  ((s.dropWhile isSpaceOrTab).reverse.dropWhile isSpaceOrTab).reverse

/-- Go `strings.Split(s, sep)` for a one-character separator. -/
def splitOnChar (c : Char) : Str → List Str
  | [] => [[]]
  | a :: rest =>
    let r := splitOnChar c rest
    if a = c then [] :: r
    else
      match r with
      | [] => [[a]]
      | h :: t => (a :: h) :: t

/-- Go `strings.Replace(s, "\r\n", "", -1)`: one left-to-right pass deleting
non-overlapping CRLF pairs (newly adjacent CR LF are not re-examined). -/
def removeCRLF : Str → Str
  | '\r' :: '\n' :: rest => removeCRLF rest
  | c :: rest => c :: removeCRLF rest
  | [] => []

/-- Go `strings.Replace(s, "\r\n", "\n", -1)`, same single-pass semantics. -/
def crlfToLF : Str → Str
  | '\r' :: '\n' :: rest => '\n' :: crlfToLF rest
  | c :: rest => c :: crlfToLF rest
  | [] => []

/-- Go `strings.Contains(s, "\r\n")`. -/
def containsCRLF : Str → Bool
  | '\r' :: '\n' :: _ => true
  | _ :: rest => containsCRLF rest
  | [] => false

/-- Go `strings.ContainsRune`. -/
def containsRune (s : Str) (c : Char) : Bool := s.any (· == c)

/-- Go `strings.HasSuffix(s, suff)`. -/
def hasSuffixStr (s suff : Str) : Bool :=
  suff.length ≤ s.length && s.drop (s.length - suff.length) == suff

/-- `convertStringToLines`: normalise CRLF and CR to LF, then split on LF;
the empty string yields no lines.  (`returnNonEmptyOnly` is only used for
the git collaborator, outside the claims, so the `false` branch is embedded.) -/
def convertStringToLines (s : Str) : List Str :=
  if s = [] then []
  else splitOnChar '\n' ((crlfToLF s).map (fun c => if c = '\r' then '\n' else c))

/-- `stringArrayContains`. -/
def stringArrayContains (array : List Str) (s : Str) : Bool :=
  array.any (· == s)

/-- `fileError`: `filePath + ": " + err`. -/
def fileError (filePath err : Str) : Str :=
  filePath ++ [':', ' '] ++ err

/-- `fileAndLineError`: `filePath + ":" + lineNum + ": " + err`. -/
def fileAndLineError (filePath : Str) (lineNum : Nat) (err : Str) : Str :=
  filePath ++ [':'] ++ (Nat.repr lineNum).toList ++ [':', ' '] ++ err

/-- The arguments record handed to every rule check (`ruleCheckArgs`). -/
structure RuleCheckArgs where
  filePath : Str
  fileAsString : Str
  fileAsLines : List Str

abbrev CheckFuncType := RuleCheckArgs → Option Str

/-- `checkEachLine` helper loop carrying the 0-based line counter. -/
def checkEachLineFrom (filePath : Str) (errMsg : Str) (isBad : Str → Bool)
    (lineNum : Nat) : List Str → Str
  | [] => []
  | l :: ls =>
    if isBad l then fileAndLineError filePath (lineNum + 1) errMsg
    else checkEachLineFrom filePath errMsg isBad (lineNum + 1) ls

def checkEachLine (filePath : Str) (lines : List Str) (errMsg : Str)
    (isBad : Str → Bool) : Str :=
  checkEachLineFrom filePath errMsg isBad 0 lines

/-- `isControlCharacter` on a rune value. -/
def isControlCharacter (char : Nat) : Bool :=
  (char == 127) || ((char ≤ 31) && (char != 9) && (char != 10) && (char != 13))

/-- `hasControlCharacters` over a string. -/
def hasControlCharacters (line : Str) : Bool :=
  line.any (fun c => isControlCharacter c.toNat)

/-- `readFirstNChars`: a `bytesCount`-byte buffer is allocated zero-filled and a
single `Read` fills at most `len(contents)` bytes; the WHOLE buffer is then
converted to a string, so a short file leaves trailing zero bytes in place. -/
def readFirstNChars (contents : List Nat) (bytesCount : Nat) : List Nat :=
  contents.take bytesCount ++ List.replicate (bytesCount - contents.length) 0

/-- Bytes of a file viewed as a Go string iterated per rune; modelled
byte-for-byte (exact for the ASCII and control bytes the claims concern). -/
def bytesToStr (bs : List Nat) : Str := bs.map Char.ofNat

/-- Go `filepath.Base` (slash-separated paths). -/
def goBase (p : Str) : Str :=
  if p = [] then ['.']
  else
    let q := (p.reverse.dropWhile (· == '/')).reverse
    if q = [] then ['/']
    else
      match strLastIndexRune q '/' with
      | some i => q.drop (i + 1)
      | none => q

/-- Go `filepath.Ext`: scan from the end of the path; stop at a separator. -/
def extScan : Str → Str → Str
  | [], _ => []
  | c :: rest, acc =>
    if c = '/' then []
    else if c = '.' then '.' :: acc
    else extScan rest (c :: acc)

def goExt (p : Str) : Str := extScan p.reverse []

/-- `ruleCheckDoNothing`. -/
def ruleCheckDoNothing (_args : RuleCheckArgs) : Option Str := some []

def lineContainsTab (line : Str) : Bool := containsRune line '\t'

/-- `ruleCheckNoTabs`. -/
def ruleCheckNoTabs (args : RuleCheckArgs) : Option Str :=
  some (checkEachLine args.filePath args.fileAsLines ("Tabs not allowed".toList) lineContainsTab)

def lineHasLeadingSpacesLoop (hasSpace : Bool) : Str → Bool
  | [] => hasSpace
  | r :: rest => if r = ' ' then lineHasLeadingSpacesLoop true rest else hasSpace

def lineHasLeadingSpaces (line : Str) : Bool :=
  if line = [] then false else lineHasLeadingSpacesLoop false line

/-- `ruleCheckNoLeadingSpaces`. -/
def ruleCheckNoLeadingSpaces (args : RuleCheckArgs) : Option Str :=
  some (checkEachLine args.filePath args.fileAsLines ("Leading spaces not allowed".toList) lineHasLeadingSpaces)

/-- Inner character loop of `ruleCheckTabsVsSpacesOnly`: threads the
`hasTabIndent` / `hasSpaceIndent` flags through one line, failing with the
offending message or breaking at the first non-indent character. -/
def scanIndentChars (hasTabIndent hasSpaceIndent : Bool) : Str → Except Str (Bool × Bool)
  | [] => .ok (hasTabIndent, hasSpaceIndent)
  | r :: rest =>
    if r = ' ' then
      if hasTabIndent then .error ("Found first space indent with prior tab indents".toList)
      else scanIndentChars hasTabIndent true rest
    else if r = '\t' then
      if hasSpaceIndent then .error ("Found first tab indent with prior space indents".toList)
      else scanIndentChars true hasSpaceIndent rest
    else .ok (hasTabIndent, hasSpaceIndent)

def tabsVsSpacesLoop (path : Str) (hasTabIndent hasSpaceIndent : Bool) (lineNum : Nat) :
    List Str → Str
  | [] => []
  | line :: rest =>
    match scanIndentChars hasTabIndent hasSpaceIndent line with
    | .error msg => fileAndLineError path (lineNum + 1) msg
    | .ok (t, s) => tabsVsSpacesLoop path t s (lineNum + 1) rest

/-- `ruleCheckTabsVsSpacesOnly`. -/
def ruleCheckTabsVsSpacesOnly (args : RuleCheckArgs) : Option Str :=
  some (tabsVsSpacesLoop args.filePath false false 0 args.fileAsLines)

/-- `ruleCheckConsistentNewlines`. -/
def ruleCheckConsistentNewlines (args : RuleCheckArgs) : Option Str :=
  let hasWindows := containsCRLF args.fileAsString
  let s := removeCRLF args.fileAsString
  let hasLinux := containsRune s '\n'
  let hasOldMac := containsRune s '\r'
  let count := (if hasWindows then 1 else 0) + (if hasLinux then 1 else 0) +
    (if hasOldMac then 1 else 0)
  if count > 1 then some (fileError args.filePath ("File uses inconsistent newlines".toList))
  else some []

/-- Leading-space counter of `ruleCheckConsistentIndentWidth` (tabs stop the count). -/
def leadingSpacesCount (line : Str) : Nat := (line.takeWhile (· == ' ')).length

structure IndentScanState where
  all3Spaces : Bool
  all4Spaces : Bool
  firstNon3SpaceLineNum : Nat
  firstNon4SpaceLineNum : Nat

def indentStep (st : IndentScanState) (lineNum : Nat) (line : Str) : IndentScanState :=
  let numSpaces := leadingSpacesCount line
  let st1 :=
    if st.all3Spaces && numSpaces % 3 != 0 then
      { st with all3Spaces := false, firstNon3SpaceLineNum := lineNum + 1 }
    else st
  if st1.all4Spaces && numSpaces % 4 != 0 then
    { st1 with all4Spaces := false, firstNon4SpaceLineNum := lineNum + 1 }
  else st1

def indentScan : IndentScanState → Nat → List Str → IndentScanState
  | st, _, [] => st
  | st, k, l :: ls => indentScan (indentStep st k l) (k + 1) ls

/-- `ruleCheckConsistentIndentWidth`. -/
def ruleCheckConsistentIndentWidth (args : RuleCheckArgs) : Option Str :=
  let st := indentScan ⟨true, true, 0, 0⟩ 0 args.fileAsLines
  if !st.all3Spaces && !st.all4Spaces then
    if !st.all4Spaces then
      some (fileAndLineError args.filePath st.firstNon4SpaceLineNum
        ("File has first non 4-space indent".toList))
    else
      some (fileAndLineError args.filePath st.firstNon3SpaceLineNum
        ("File has first non 3-space indent".toList))
  else some []

/-- `getFilePathAsNameSpace`; `none` models the Go slice panic that occurs
when the path contains no separator (`filePath[0:-1]`). -/
def getFilePathAsNameSpace (filePath : Str) : Option Str :=
  let fp := filePath.map (fun c => if c = '\\' then '/' else c)
  match strLastIndexRune fp '/' with
  | none => none
  | some base =>
    let dir := fp.take base
    let dir :=
      match strIndexRune dir ':' with
      | some colon => dir.drop (colon + 1)
      | none => dir
    let dir := if (['/'] : Str).isPrefixOf dir then dir.drop 1 else dir
    let p1 := dir.map (fun c => if c = '/' then '.' else c)
    some (p1.map (fun c => if c = '\\' then '.' else c))

def badNameSpaceLoop (path : Str) (ns? : Option Str) (lineNum : Nat) :
    List Str → Option Str
  | [] => some []
  | line :: rest =>
    let t := trimSpaceTab line
    if ("namespace ".toList).isPrefixOf t then
      let namespaceName := t.drop ("namespace ".toList).length
      match ns? with
      | none => none
      | some pathAsNameSpace =>
        if !hasSuffixStr pathAsNameSpace ('.' :: namespaceName) then
          some (fileAndLineError path (lineNum + 1)
            ("Namespace ".toList ++ namespaceName ++ " is not a suffix of ".toList ++
              pathAsNameSpace))
        else badNameSpaceLoop path ns? (lineNum + 1) rest
    else badNameSpaceLoop path ns? (lineNum + 1) rest

/-- `ruleCheckBadNameSpace`.  The Go code computes `pathAsNameSpace` lazily at
the first `namespace` line; since the derivation is pure, the derived value is
passed in and only consulted at such a line (so the panic case also only
triggers there, as in the source). -/
def ruleCheckBadNameSpace (args : RuleCheckArgs) : Option Str :=
  badNameSpaceLoop args.filePath (getFilePathAsNameSpace args.filePath) 0 args.fileAsLines

def classNameOfLine (t : Str) : Option Str :=
  if ("class ".toList).isPrefixOf t then some (t.drop ("class ".toList).length)
  else if ("public class ".toList).isPrefixOf t then some (t.drop ("public class ".toList).length)
  else if ("internal class ".toList).isPrefixOf t then
    some (t.drop ("internal class ".toList).length)
  else none

def badClassNameLoop (path base : Str) (lineNum : Nat) : List Str → Str
  | [] => []
  | l :: ls =>
    let t := trimSpaceTab l
    match classNameOfLine t with
    | none => badClassNameLoop path base (lineNum + 1) ls
    | some className =>
      if className != base then
        fileAndLineError path (lineNum + 1)
          ("Class name ".toList ++ className ++ " should be ".toList ++ base ++
            " instead".toList)
      else badClassNameLoop path base (lineNum + 1) ls

/-- `ruleCheckBadClassName`; `none` models the Go slice panic when the base
name is shorter than `".cs"`. -/
def ruleCheckBadClassName (args : RuleCheckArgs) : Option Str :=
  let b := goBase args.filePath
  if b.length < (".cs".toList).length then none
  else some (badClassNameLoop args.filePath (b.take (b.length - (".cs".toList).length)) 0
    args.fileAsLines)

def publicClassLoop (path : Str) (count lineNum : Nat) : List Str → Str
  | [] => []
  | l :: ls =>
    let t := trimSpaceTab l
    if ("public class ".toList).isPrefixOf t then
      let count := count + 1
      if count > 1 then
        fileAndLineError path (lineNum + 1)
          ("Cannot have multiple public classes per file".toList)
      else publicClassLoop path count (lineNum + 1) ls
    else publicClassLoop path count (lineNum + 1) ls

/-- `ruleCheckNoMultiplePublicClasses`. -/
def ruleCheckNoMultiplePublicClasses (args : RuleCheckArgs) : Option Str :=
  some (publicClassLoop args.filePath 0 0 args.fileAsLines)

/-- `ruleCheckWindowsNewlines`. -/
def ruleCheckWindowsNewlines (args : RuleCheckArgs) : Option Str :=
  let s := removeCRLF args.fileAsString
  if containsRune s '\n' then
    some (fileError args.filePath ("File contains non-Windows (Linux) newlines".toList))
  else if containsRune s '\r' then
    some (fileError args.filePath ("File contains non-Windows (Old Mac) newlines".toList))
  else some []

/-- `ruleCheckLinuxNewlines`. -/
def ruleCheckLinuxNewlines (args : RuleCheckArgs) : Option Str :=
  if containsCRLF args.fileAsString then
    some (fileError args.filePath ("File contains non-Linux (Windows) newlines".toList))
  else
    let s := removeCRLF args.fileAsString
    if containsRune s '\r' then
      some (fileError args.filePath ("File contains non-Linux (Old Mac) newlines".toList))
    else some []

/-- `ruleCheckOldMacNewlines`. -/
def ruleCheckOldMacNewlines (args : RuleCheckArgs) : Option Str :=
  if containsCRLF args.fileAsString then
    some (fileError args.filePath ("File contains non-Old Mac (Windows) newlines".toList))
  else
    let s := removeCRLF args.fileAsString
    if containsRune s '\n' then
      some (fileError args.filePath ("File contains non-Old Mac (Linux) newlines".toList))
    else some []

def csharpKeywordsWithSpacedParens : List Str :=
  [("catch".toList), ("for".toList), ("foreach".toList), ("if".toList), ("lock".toList),
    ("switch".toList), ("using".toList), ("while".toList)]

def needSpaceLineBuf (path : Str) (lineNum : Nat) (t : Str) : Str :=
  csharpKeywordsWithSpacedParens.foldl
    (fun buffer keyword =>
      if (keyword ++ ['(']).isPrefixOf t then
        buffer ++ fileAndLineError path (lineNum + 1)
          ("Need space between keyword ".toList ++ keyword ++ " and open paren".toList) ++
          ['\n']
      else buffer) []

def needSpaceLoop (path : Str) (lineNum : Nat) : List Str → Str
  | [] => []
  | l :: ls =>
    needSpaceLineBuf path lineNum (trimSpaceTab l) ++ needSpaceLoop path (lineNum + 1) ls

/-- `ruleCheckNeedSpaceAfterKeyword`. -/
def ruleCheckNeedSpaceAfterKeyword (args : RuleCheckArgs) : Option Str :=
  some (needSpaceLoop args.filePath 0 args.fileAsLines)

/-- The `rule` struct. -/
structure Rule where
  name : Str
  argument : Str
  fileTypeFlags : Nat
  fileExtensions : List Str
  checkFunc : CheckFuncType

def flagTextFile : Nat := 1
def flagBinaryFile : Nat := 2

/-- `addRule`: registers a rule in the map, splitting the pipe-separated
extension string (empty string means the empty extension list). -/
def addRule (rulesMap : List (Str × Rule)) (ruleName : Str) (checkFunc : CheckFuncType)
    (fileTypeFlags : Nat) (fileExtensions : Str) : List (Str × Rule) :=
  let fileExtensionsArray := if fileExtensions = [] then [] else splitOnChar '|' fileExtensions
  rulesMap ++ [(ruleName,
    { name := ruleName, argument := [], fileTypeFlags := fileTypeFlags,
      fileExtensions := fileExtensionsArray, checkFunc := checkFunc })]

/-- `initRulesDefinitions`: the thirteen `addRule` registrations, in source order. -/
def initRulesDefinitions : List (Str × Rule) :=
  let defs : List (Str × Rule) := []
  let defs := addRule defs ("DoNothing".toList) ruleCheckDoNothing flagTextFile []
  let defs := addRule defs ("NoTabs".toList) ruleCheckNoTabs flagTextFile []
  let defs := addRule defs ("NoLeadingSpaces".toList) ruleCheckNoLeadingSpaces flagTextFile []
  let defs := addRule defs ("TabsVsSpacesOnly".toList) ruleCheckTabsVsSpacesOnly flagTextFile []
  let defs := addRule defs ("ConsistentNewlines".toList) ruleCheckConsistentNewlines flagTextFile []
  let defs := addRule defs ("ConsistentIndentWidth".toList) ruleCheckConsistentIndentWidth flagTextFile []
  let defs := addRule defs ("BadNameSpace".toList) ruleCheckBadNameSpace flagTextFile (".cs".toList)
  let defs := addRule defs ("BadClassName".toList) ruleCheckBadClassName flagTextFile (".cs".toList)
  let defs := addRule defs ("NoMultiplePublicClasses".toList) ruleCheckNoMultiplePublicClasses flagTextFile (".cs".toList)
  let defs := addRule defs ("WindowsNewlines".toList) ruleCheckWindowsNewlines flagTextFile []
  let defs := addRule defs ("LinuxNewlines".toList) ruleCheckLinuxNewlines flagTextFile []
  let defs := addRule defs ("OldMacNewlines".toList) ruleCheckOldMacNewlines flagTextFile []
  let defs := addRule defs ("NeedSpaceAfterKeyword".toList) ruleCheckNeedSpaceAfterKeyword flagTextFile (".cs".toList)
  defs

def rulesDefinitions : List (Str × Rule) := initRulesDefinitions

/-- Lookup in the rule map (keys are unique, so first match suffices). -/
def mapLookup (rulesMap : List (Str × Rule)) (ruleName : Str) : Option Rule :=
  match rulesMap with
  | [] => none
  | (k, v) :: rest => if k = ruleName then some v else mapLookup rest ruleName

/-- `getRuleMustExist`; `none` models `fatal("Unrecognized rule: ...")`. -/
def getRuleMustExist (ruleName : Str) : Option Rule :=
  mapLookup rulesDefinitions ruleName

/-- `cloneRule`: the Go struct literal lists `name`, `argument`, `checkFunc`
and `fileExtensions` only, so `fileTypeFlags` takes the zero value 0. -/
def cloneRule (r : Rule) : Rule :=
  { name := r.name, argument := r.argument, fileTypeFlags := 0,
    fileExtensions := r.fileExtensions, checkFunc := r.checkFunc }

/-- `parseRule`. -/
def parseRule (line : Str) : Option Rule :=
  match strIndexSpace line with
  | none => getRuleMustExist line
  | some spaceIndex =>
    (getRuleMustExist (line.take spaceIndex)).map fun ruleDef =>
      let newRule := cloneRule ruleDef
      { newRule with argument := line.drop (spaceIndex + 1) }

/-- The leading token of a config line: the whole line when it has no space,
otherwise the text before the first space (the name `parseRule` looks up). -/
def leadingToken (line : Str) : Str :=
  match strIndexSpace line with
  | none => line
  | some i => line.take i

def registeredRuleNames : List Str := rulesDefinitions.map Prod.fst

/-- A candidate file: its raw path and its on-disk bytes. -/
structure CandidateFile where
  path : Str
  contents : List Nat

/-- Per-file evaluation state of `runRulesOnFiles`, instrumented with the list
of rules whose check function was invoked and the number of content loads. -/
structure RunSt where
  fileLoaded : Bool
  fileAsString : Str
  fileAsLines : List Str
  loadCount : Nat
  invoked : List Rule
  output : List Str
  panicked : Bool

/-- The three skip tests of the inner rule loop, as one predicate:
a rule applies when its extension list is empty or holds the file's
extension, and its type flags allow the file text/binary class. -/
def ruleApplicable (r : Rule) (fileExtension : Str) (isBinary : Bool) : Bool :=
  !(r.fileExtensions != [] && !(stringArrayContains r.fileExtensions fileExtension)) &&
  !(isBinary && (r.fileTypeFlags &&& flagBinaryFile == 0)) &&
  !(!isBinary && (r.fileTypeFlags &&& flagTextFile == 0))

/-- Inner loop of `runRulesOnFiles` for one file: skip by extension, skip by
content type, lazily load, run the check, collect non-empty output.  A check
returning `none` (a Go panic) stops the whole loop. -/
def runRulesLoop (filePath : Str) (contents : List Nat) (fileExtension : Str)
    (isBinary : Bool) : RunSt → List Rule → RunSt
  | st, [] => st
  | st, r :: rest =>
    if r.fileExtensions != [] && !(stringArrayContains r.fileExtensions fileExtension) then
      runRulesLoop filePath contents fileExtension isBinary st rest
    else if isBinary && (r.fileTypeFlags &&& flagBinaryFile == 0) then
      runRulesLoop filePath contents fileExtension isBinary st rest
    else if !isBinary && (r.fileTypeFlags &&& flagTextFile == 0) then
      runRulesLoop filePath contents fileExtension isBinary st rest
    else
      let st1 :=
        if !st.fileLoaded then
          let s := bytesToStr contents
          { st with
            fileAsString := s
            fileAsLines := convertStringToLines s
            fileLoaded := true
            loadCount := st.loadCount + 1 }
        else st
      match r.checkFunc ⟨filePath, st1.fileAsString, st1.fileAsLines⟩ with
      | none => { st1 with invoked := st1.invoked ++ [r], panicked := true }
      | some msg =>
        runRulesLoop filePath contents fileExtension isBinary
          { st1 with
            invoked := st1.invoked ++ [r]
            output := if msg != [] then st1.output ++ [msg] else st1.output } rest

/-- Body of `runRulesOnFiles` for one file.  `canon` stands for the
environment-dependent `getCanonicalPath` (absolute + cleaned). -/
def runRulesOnFile (canon : Str → Str) (rules : List Rule) (f : CandidateFile) : RunSt :=
  let fileExtension := goExt f.path
  let filePath := canon f.path
  let firstNChars := readFirstNChars f.contents 50
  let isBinary := hasControlCharacters (bytesToStr firstNChars)
  runRulesLoop filePath f.contents fileExtension isBinary
    ⟨false, [], [], 0, [], [], false⟩ rules

/-- `runRulesOnFiles`: the outer loop over the candidate list. -/
def runRulesOnFiles (canon : Str → Str) (rules : List Rule) (files : List CandidateFile) :
    List RunSt :=
  files.map (runRulesOnFile canon rules)

/-- Text/binary classification of a candidate file, as computed in
`runRulesOnFiles` from the first 50 bytes. -/
def isBinaryFile (f : CandidateFile) : Bool :=
  hasControlCharacters (bytesToStr (readFirstNChars f.contents 50))

/-- Lookup in the rule map fails exactly when the name is not among the keys. -/
theorem mapLookup_eq_none_iff (m : List (Str × Rule)) (name : Str) :
    mapLookup m name = none ↔ name ∉ m.map Prod.fst := by
  induction m with
  | nil =>
    constructor
    · intro _ h
      cases h
    · intro _
      rfl
  | cons kv rest ih =>
    obtain ⟨k, v⟩ := kv
    constructor
    · intro hc hm
      by_cases h : k = name
      · rw [mapLookup, if_pos h] at hc
        cases hc
      · rw [mapLookup, if_neg h] at hc
        rcases List.mem_cons.mp hm with he | hm2
        · exact h he.symm
        · exact (ih.mp hc) hm2
    · intro hnm
      have h1 : k ≠ name := by
        intro he
        exact hnm (by rw [← he]; exact List.mem_cons_self _ _)
      have h2 : name ∉ rest.map Prod.fst := by
        intro hx
        exact hnm (List.mem_cons_of_mem _ hx)
      rw [mapLookup, if_neg h1]
      exact ih.mpr h2

/-- C1: the claim says a cloned rule instance differs from the catalog entry
only in its argument; in fact `cloneRule` omits `fileTypeFlags`, so the clone
of `NoTabs` built for config line `NoTabs x` carries flags 0 instead of the
catalog's `flagTextFile`, and as a consequence it is applicable to no file of
either content type. -/
theorem claim_c1_clone_loses_file_type_flags :
    (parseRule ("NoTabs x".toList)).map Rule.name = some ("NoTabs".toList) ∧
    (parseRule ("NoTabs x".toList)).map Rule.argument = some ("x".toList) ∧
    (parseRule ("NoTabs x".toList)).map Rule.fileExtensions = some [] ∧
    (parseRule ("NoTabs x".toList)).map Rule.checkFunc = some ruleCheckNoTabs ∧
    (parseRule ("NoTabs x".toList)).map Rule.fileTypeFlags = some 0 ∧
    (getRuleMustExist ("NoTabs".toList)).map Rule.fileTypeFlags = some flagTextFile ∧
    flagTextFile ≠ 0 ∧
    (∀ fileExtension : Str, ∀ isBinary : Bool,
      (parseRule ("NoTabs x".toList)).map
        (fun r => ruleApplicable r fileExtension isBinary) = some false) := by
  refine ⟨rfl, rfl, rfl, rfl, rfl, rfl, by decide, ?_⟩
  intro fileExtension isBinary
  cases isBinary <;> rfl

/-- C2: the claim says a file shorter than the 50-byte prefix is classified
binary iff some byte actually in the file is a disallowed control character.
In fact `readFirstNChars` converts the whole zero-filled buffer, so the
3-byte file `abc` (no control bytes) is padded with 47 NUL bytes and is
classified binary. -/
theorem claim_c2_short_file_classified_binary :
    readFirstNChars [97, 98, 99] 50 = [97, 98, 99] ++ List.replicate 47 0 ∧
    (readFirstNChars [97, 98, 99] 50).take 3 = [97, 98, 99] ∧
    ([97, 98, 99].any (fun b => isControlCharacter b)) = false ∧
    hasControlCharacters (bytesToStr (readFirstNChars [97, 98, 99] 50)) = true := by
  refine ⟨by decide, by decide, by decide, by decide⟩

/-- C9: `parseRule` is fatal (returns `none`, modelling `fatal`) exactly when
the leading token of the config line — the whole line if it has no space,
otherwise the text before the first space — is not a registered rule name. -/
theorem claim_c9_unknown_rule_fatal (line : Str) :
    parseRule line = none ↔ leadingToken line ∉ registeredRuleNames := by
  cases h : strIndexSpace line with
  | none =>
    simp only [parseRule, leadingToken, h]
    exact mapLookup_eq_none_iff rulesDefinitions line
  | some i =>
    simp only [parseRule, leadingToken, h, Option.map_eq_none']
    exact mapLookup_eq_none_iff rulesDefinitions (List.take i line)

/-- C3 counterexample: `Widget.cs` with the two offending declaration lines
`class A` and `class B` yields exactly one diagnostic, the one for line 1;
the output is not the two-diagnostic concatenation the claim predicts. -/
theorem claim_c3_counterexample :
    ruleCheckBadClassName ⟨("/d/Widget.cs".toList), [],
        [("class A".toList), ("class B".toList)]⟩ =
      some (fileAndLineError ("/d/Widget.cs".toList) 1
        ("Class name A should be Widget instead".toList)) ∧
    ruleCheckBadClassName ⟨("/d/Widget.cs".toList), [],
        [("class A".toList), ("class B".toList)]⟩ ≠
      some (fileAndLineError ("/d/Widget.cs".toList) 1
          ("Class name A should be Widget instead".toList) ++
        fileAndLineError ("/d/Widget.cs".toList) 2
          ("Class name B should be Widget instead".toList)) := by
  refine ⟨by decide, by decide⟩

/-- C5 counterexample: in the file `[" a", "\tb", " c"]` line 2's leading
whitespace contains a tab and line 3's starts with a space, so the claim
predicts a failure naming line 3; the code instead fails at line 2 (the tab
after the earlier space indent). -/
theorem claim_c5_counterexample :
    ruleCheckTabsVsSpacesOnly ⟨("f".toList), [],
        [(" a".toList), ("\tb".toList), (" c".toList)]⟩ =
      some (fileAndLineError ("f".toList) 2
        ("Found first tab indent with prior space indents".toList)) ∧
    ruleCheckTabsVsSpacesOnly ⟨("f".toList), [],
        [(" a".toList), ("\tb".toList), (" c".toList)]⟩ ≠
      some (fileAndLineError ("f".toList) 3
        ("Found first space indent with prior tab indents".toList)) := by
  refine ⟨by decide, by decide⟩

/-- C6: the ConsistentNewlines check fails exactly when at least two of the
three classifications hold — CRLF present, bare LF present after removing
CRLF pairs, bare CR present after removing CRLF pairs; a CRLF-only file
passes and a file with a CRLF pair and a bare LF fails. -/
theorem claim_c6_consistent_newlines (path s : Str) (lines : List Str) :
    (¬ ruleCheckConsistentNewlines ⟨path, s, lines⟩ = some [] ↔
      ((containsCRLF s && containsRune (removeCRLF s) '\n') ||
        (containsCRLF s && containsRune (removeCRLF s) '\r') ||
        (containsRune (removeCRLF s) '\n' && containsRune (removeCRLF s) '\r')) = true) ∧
    (ruleCheckConsistentNewlines ⟨path, s, lines⟩ = some [] ∨
      ruleCheckConsistentNewlines ⟨path, s, lines⟩ =
        some (fileError path ("File uses inconsistent newlines".toList))) ∧
    ruleCheckConsistentNewlines ⟨("f".toList), ("a\r\nb\r\n".toList), []⟩ = some [] ∧
    ruleCheckConsistentNewlines ⟨("f".toList), ("a\r\nb\nc".toList), []⟩ =
      some (fileError ("f".toList) ("File uses inconsistent newlines".toList)) := by
  have hne : ∀ p e : Str, fileError p e ≠ [] := by
    intro p e
    simp [fileError]
  refine ⟨?_, ?_, by decide, by decide⟩
  · simp only [ruleCheckConsistentNewlines]
    cases hW : containsCRLF s <;>
      cases hL : containsRune (removeCRLF s) '\n' <;>
        cases hM : containsRune (removeCRLF s) '\r' <;>
          simp [hne]
  · simp only [ruleCheckConsistentNewlines]
    cases hW : containsCRLF s <;>
      cases hL : containsRune (removeCRLF s) '\n' <;>
        cases hM : containsRune (removeCRLF s) '\r' <;>
          simp

/-- Index of the first line breaking a property (the "first line that broke"
of the claim). -/
def firstBreakIdx (p : Str → Bool) : List Str → Option Nat
  | [] => none
  | l :: ls => if p l then some 0 else (firstBreakIdx p ls).map (· + 1)

/-- One loop iteration of the indent scan, written out field by field. -/
theorem indentStep_eq (st : IndentScanState) (k : Nat) (l : Str) :
    indentStep st k l =
      ⟨st.all3Spaces && (leadingSpacesCount l % 3 == 0),
        st.all4Spaces && (leadingSpacesCount l % 4 == 0),
        if st.all3Spaces && (leadingSpacesCount l % 3 != 0) then k + 1
          else st.firstNon3SpaceLineNum,
        if st.all4Spaces && (leadingSpacesCount l % 4 != 0) then k + 1
          else st.firstNon4SpaceLineNum⟩ := by
  obtain ⟨a3, a4, n3, n4⟩ := st
  have e3 : (leadingSpacesCount l % 3 == 0) = !(leadingSpacesCount l % 3 != 0) := by
    simp [bne]
  have e4 : (leadingSpacesCount l % 4 == 0) = !(leadingSpacesCount l % 4 != 0) := by
    simp [bne]
  rw [e3, e4]
  cases a3 <;> cases a4 <;>
    cases h3 : (leadingSpacesCount l % 3 != 0) <;>
      cases h4 : (leadingSpacesCount l % 4 != 0) <;>
        simp [indentStep, h3, h4]

/-- Characterisation of the indent scan: the two booleans record whether every
line's leading-space count is a multiple of 3 (resp. 4), and, starting from a
state where the 4-multiple property still holds, `firstNon4SpaceLineNum` ends
up at the 1-based number of the first line breaking it. -/
theorem indentScan_spec (ls : List Str) : ∀ (st : IndentScanState) (k : Nat),
    (indentScan st k ls).all3Spaces =
      (st.all3Spaces && ls.all (fun l => leadingSpacesCount l % 3 == 0)) ∧
    (indentScan st k ls).all4Spaces =
      (st.all4Spaces && ls.all (fun l => leadingSpacesCount l % 4 == 0)) ∧
    (indentScan st k ls).firstNon4SpaceLineNum =
      (if st.all4Spaces then
        match firstBreakIdx (fun l => leadingSpacesCount l % 4 != 0) ls with
        | some i => k + i + 1
        | none => st.firstNon4SpaceLineNum
      else st.firstNon4SpaceLineNum) := by
  induction ls with
  | nil =>
    intro st k
    refine ⟨by simp [indentScan], by simp [indentScan], ?_⟩
    simp [indentScan, firstBreakIdx]
  | cons l ls ih =>
    intro st k
    have hscan : indentScan st k (l :: ls) = indentScan (indentStep st k l) (k + 1) ls := rfl
    obtain ⟨ih3, ih4, ihn⟩ := ih (indentStep st k l) (k + 1)
    rw [hscan]
    refine ⟨?_, ?_, ?_⟩
    · rw [ih3, indentStep_eq]
      simp [Bool.and_assoc]
    · rw [ih4, indentStep_eq]
      simp [Bool.and_assoc]
    · rw [ihn, indentStep_eq]
      cases ha4 : st.all4Spaces with
      | false => simp [firstBreakIdx]
      | true =>
        cases hb : (leadingSpacesCount l % 4 != 0) with
        | true =>
          simp only [Bool.true_and, if_pos rfl]
          have : (leadingSpacesCount l % 4 == 0) = false := by
            cases hq : (leadingSpacesCount l % 4 == 0) <;> simp_all [bne]
          simp [firstBreakIdx, hb, this]
        | false =>
          have : (leadingSpacesCount l % 4 == 0) = true := by
            cases hq : (leadingSpacesCount l % 4 == 0) <;> simp_all [bne]
          simp only [this, Bool.and_true, Bool.and_false, hb]
          simp [firstBreakIdx, hb]
          cases hfb : firstBreakIdx (fun l => leadingSpacesCount l % 4 != 0) ls <;>
            simp [hfb] <;> omega

/-- A found first break means not every line satisfies the complement. -/
theorem firstBreakIdx_some_all_false (p : Str → Bool) :
    ∀ (ls : List Str) (i : Nat), firstBreakIdx p ls = some i →
      ls.all (fun l => !(p l)) = false := by
  intro ls
  induction ls with
  | nil =>
    intro i h
    cases h
  | cons l ls ih =>
    intro i h
    cases hp : p l with
    | true => simp [hp]
    | false =>
      rw [firstBreakIdx, if_neg (by simp [hp])] at h
      cases hfb : firstBreakIdx p ls with
      | none => rw [hfb] at h; cases h
      | some j =>
        simp [hp]
        have := ih j hfb
        simpa using this

/-- C4: the ConsistentIndentWidth check passes when every line's leading-space
count is a multiple of 3, or every count is a multiple of 4, or no line is
indented; when both multiple properties are broken it fails, reporting the
1-based number of the first line that broke the 4-multiple property with the
non-4-space-indent message; concretely, leading-space counts [0,4,5] fail
reporting line 3. -/
theorem claim_c4_consistent_indent_width (path s : Str) (lines : List Str) :
    ((∀ l ∈ lines, leadingSpacesCount l % 3 = 0) ∨
      (∀ l ∈ lines, leadingSpacesCount l % 4 = 0) ∨
      (∀ l ∈ lines, leadingSpacesCount l = 0) →
      ruleCheckConsistentIndentWidth ⟨path, s, lines⟩ = some []) ∧
    (∀ i : Nat, (¬ ∀ l ∈ lines, leadingSpacesCount l % 3 = 0) →
      firstBreakIdx (fun l => leadingSpacesCount l % 4 != 0) lines = some i →
      ruleCheckConsistentIndentWidth ⟨path, s, lines⟩ =
        some (fileAndLineError path (i + 1) ("File has first non 4-space indent".toList))) ∧
    ruleCheckConsistentIndentWidth ⟨("f".toList), [],
        [[], ("    a".toList), ("     b".toList)]⟩ =
      some (fileAndLineError ("f".toList) 3 ("File has first non 4-space indent".toList)) := by
  obtain ⟨h3, h4, hn4⟩ := indentScan_spec lines ⟨true, true, 0, 0⟩ 0
  refine ⟨?_, ?_, by decide⟩
  · intro hp
    have hall : lines.all (fun l => leadingSpacesCount l % 3 == 0) = true ∨
        lines.all (fun l => leadingSpacesCount l % 4 == 0) = true := by
      rcases hp with hp | hp | hp
      · left
        simp only [List.all_eq_true, beq_iff_eq]
        exact hp
      · right
        simp only [List.all_eq_true, beq_iff_eq]
        exact hp
      · left
        simp only [List.all_eq_true, beq_iff_eq]
        intro l hl
        rw [hp l hl]
    show (let st := indentScan ⟨true, true, 0, 0⟩ 0 lines
      if !st.all3Spaces && !st.all4Spaces then _ else some []) = some []
    rcases hall with hall | hall
    · simp only [h3, hall]
      simp
    · simp only []
      rw [if_neg]
      simp only [h4, hall, Bool.true_and, Bool.and_true, Bool.not_true, Bool.and_false]
      simp
  · intro i hnot3 hfb
    have hall3 : lines.all (fun l => leadingSpacesCount l % 3 == 0) = false := by
      cases hx : lines.all (fun l => leadingSpacesCount l % 3 == 0) with
      | true =>
        exfalso
        apply hnot3
        intro l hl
        have := (List.all_eq_true.mp hx) l hl
        exact beq_iff_eq.mp this
      | false => rfl
    have hall4 : lines.all (fun l => leadingSpacesCount l % 4 == 0) = false := by
      have := firstBreakIdx_some_all_false (fun l => leadingSpacesCount l % 4 != 0) lines i hfb
      have he : (fun l => !(leadingSpacesCount l % 4 != 0)) =
          (fun l => (leadingSpacesCount l % 4 == 0)) := by
        funext l
        simp [bne]
      rw [he] at this
      exact this
    show (let st := indentScan ⟨true, true, 0, 0⟩ 0 lines
      if !st.all3Spaces && !st.all4Spaces then
        if !st.all4Spaces then
          some (fileAndLineError path st.firstNon4SpaceLineNum
            ("File has first non 4-space indent".toList))
        else
          some (fileAndLineError path st.firstNon3SpaceLineNum
            ("File has first non 3-space indent".toList))
      else some []) = _
    simp only [h3, h4, hall3, hall4, Bool.and_false, Bool.not_false, Bool.and_true]
    rw [hn4]
    simp [hfb]

/-- The leading whitespace of a line: its maximal leading run of spaces/tabs
(the region the TabsVsSpacesOnly scanner inspects). -/
def leadingWhitespace (l : Str) : Str := l.takeWhile isSpaceOrTab

/-- Scanning a line whose leading whitespace holds no space, from a state with
no space indent recorded, never fails: it keeps `hasSpaceIndent = false` and
records a tab indent iff the line's leading whitespace holds a tab. -/
theorem scanIndentChars_no_space (l : Str) : ∀ ht : Bool,
    containsRune (leadingWhitespace l) ' ' = false →
    scanIndentChars ht false l =
      .ok (ht || containsRune (leadingWhitespace l) '\t', false) := by
  induction l with
  | nil =>
    intro ht h
    simp [scanIndentChars, leadingWhitespace, containsRune]
  | cons c rest ih =>
    intro ht h
    by_cases hc : c = ' '
    · exfalso
      subst hc
      rw [leadingWhitespace, List.takeWhile_cons, if_pos (by simp [isSpaceOrTab])] at h
      simp [containsRune] at h
    · by_cases htab : c = '\t'
      · subst htab
        have hlw : leadingWhitespace ('\t' :: rest) = '\t' :: leadingWhitespace rest := by
          rw [leadingWhitespace, List.takeWhile_cons, if_pos (by simp [isSpaceOrTab])]
          rfl
      
        rw [hlw] at h ⊢
        have hrest : containsRune (leadingWhitespace rest) ' ' = false := by
          simpa [containsRune] using h
        rw [scanIndentChars, if_neg (by simp), if_pos rfl]
        rw [ih true hrest]
        simp [containsRune]
      · have hws : isSpaceOrTab c = false := by
          simp [isSpaceOrTab, hc, htab]
        have hlw : leadingWhitespace (c :: rest) = [] := by
          rw [leadingWhitespace, List.takeWhile_cons, if_neg (by simp [hws])]
        rw [scanIndentChars, if_neg (by simpa using hc), if_neg (by simpa using htab)]
        rw [hlw]
        simp [containsRune]

/-- Running the line loop over a block of lines whose leading whitespace is
tab-only (no space) just advances the counter and accumulates the tab flag. -/
theorem tabsVsSpacesLoop_tab_only (path : Str) (pre : List Str) :
    ∀ (rest : List Str) (ht : Bool) (k : Nat),
    (∀ l ∈ pre, containsRune (leadingWhitespace l) ' ' = false) →
    tabsVsSpacesLoop path ht false k (pre ++ rest) =
      tabsVsSpacesLoop path
        (ht || pre.any (fun l => containsRune (leadingWhitespace l) '\t'))
        false (k + pre.length) rest := by
  induction pre with
  | nil =>
    intro rest ht k _
    simp
  | cons l pre ih =>
    intro rest ht k h
    have hl := h l (List.mem_cons_self _ _)
    have hpre : ∀ x ∈ pre, containsRune (leadingWhitespace x) ' ' = false := by
      intro x hx
      exact h x (List.mem_cons_of_mem _ hx)
    rw [List.cons_append, tabsVsSpacesLoop, scanIndentChars_no_space l ht hl]
    dsimp only
    rw [ih rest (ht || containsRune (leadingWhitespace l) '\t') (k + 1) hpre]
    have hb : ((ht || containsRune (leadingWhitespace l) '\t') ||
        pre.any (fun x => containsRune (leadingWhitespace x) '\t')) =
      (ht || (l :: pre).any (fun x => containsRune (leadingWhitespace x) '\t')) := by

      simp [Bool.or_assoc]
    have hk : k + 1 + pre.length = k + (l :: pre).length := by
      simp [List.length_cons]
      omega
    rw [hb, hk]

/-- C5 (amended): a file whose every line's leading whitespace consists only
of tabs (holds no space) passes; and when all lines before line j have tab-only
leading whitespace, at least one of them records a tab indent, and line j's
leading whitespace starts with a space, the check fails naming line j. -/
theorem claim_c5_tabs_vs_spaces (path s : Str) (lines pre post : List Str) (lj : Str) :
    ((∀ l ∈ lines, containsRune (leadingWhitespace l) ' ' = false) →
      ruleCheckTabsVsSpacesOnly ⟨path, s, lines⟩ = some []) ∧
    (lines = pre ++ lj :: post →
      (∀ l ∈ pre, containsRune (leadingWhitespace l) ' ' = false) →
      pre.any (fun l => containsRune (leadingWhitespace l) '\t') = true →
      lj.head? = some ' ' →
      ruleCheckTabsVsSpacesOnly ⟨path, s, lines⟩ =
        some (fileAndLineError path (pre.length + 1)
          ("Found first space indent with prior tab indents".toList))) := by
  constructor
  · intro h
    show some (tabsVsSpacesLoop path false false 0 lines) = some []
    have := tabsVsSpacesLoop_tab_only path lines [] false 0 h
    rw [List.append_nil] at this
    rw [this]
    rfl
  · intro hsplit hpre htab hhead
    subst hsplit
    show some (tabsVsSpacesLoop path false false 0 (pre ++ lj :: post)) = _
    rw [tabsVsSpacesLoop_tab_only path pre (lj :: post) false 0 hpre]
    rw [Bool.false_or, htab]
    obtain ⟨c, t, hc⟩ : ∃ c t, lj = c :: t := by
      cases lj with
      | nil => cases hhead
      | cons c t => exact ⟨c, t, rfl⟩
    have hcsp : c = ' ' := by
      rw [hc] at hhead
      simpa using hhead
    subst hcsp
    rw [hc, tabsVsSpacesLoop, scanIndentChars, if_pos rfl]
    simp

/-- Witness for the ConsistentIndentWidth claim: leading-space counts
[0, 4, 5] break both multiple properties and fail at line 3. -/
theorem claim_c4_witness :
    ruleCheckConsistentIndentWidth ⟨("f".toList), [],
        [[], ("    a".toList), ("     b".toList)]⟩ =
      some (fileAndLineError ("f".toList) 3 ("File has first non 4-space indent".toList)) := by
  refine (claim_c4_consistent_indent_width ("f".toList) []
    [[], ("    a".toList), ("     b".toList)]).2.1 2 ?_ (by decide)
  intro hall
  have h1 := hall ("    a".toList) (by simp)
  revert h1
  decide

/-- Witness for the TabsVsSpacesOnly claim: a tab-only file passes, and a tab
indent followed by a space-indented line fails at that line. -/
theorem claim_c5_witness :
    ruleCheckTabsVsSpacesOnly ⟨("f".toList), [], [("\ta".toList), ("\tb".toList)]⟩ =
      some [] ∧
    ruleCheckTabsVsSpacesOnly ⟨("g".toList), [], [("\ta".toList), (" b".toList)]⟩ =
      some (fileAndLineError ("g".toList) 2
        ("Found first space indent with prior tab indents".toList)) := by
  constructor
  · exact (claim_c5_tabs_vs_spaces ("f".toList) [] [("\ta".toList), ("\tb".toList)]
      [] [] []).1 (by decide)
  · exact (claim_c5_tabs_vs_spaces ("g".toList) [] [("\ta".toList), (" b".toList)]
      [("\ta".toList)] [] (" b".toList)).2 rfl (by decide) (by decide) (by decide)

/-- The expected class name computed by `ruleCheckBadClassName`: the path's
base name with the last three characters (the length of ".cs") removed. -/
def expectedClassName (path : Str) : Str :=
  (goBase path).take ((goBase path).length - (".cs".toList).length)

/-- A line that does not offend the BadClassName rule: it either declares no
class or declares one with the expected name. -/
def lineNotOffending (base x : Str) : Bool :=
  match classNameOfLine (trimSpaceTab x) with
  | some n => n == base
  | none => true

theorem badClassNameLoop_skip (path base : Str) (pre : List Str) :
    ∀ (rest : List Str) (k : Nat),
    (∀ x ∈ pre, lineNotOffending base x = true) →
    badClassNameLoop path base k (pre ++ rest) =
      badClassNameLoop path base (k + pre.length) rest := by
  induction pre with
  | nil =>
    intro rest k _
    simp
  | cons x pre ih =>
    intro rest k h
    have hx := h x (List.mem_cons_self _ _)
    have hrest : ∀ y ∈ pre, lineNotOffending base y = true := by
      intro y hy
      exact h y (List.mem_cons_of_mem _ hy)
    rw [List.cons_append]
    simp only [badClassNameLoop]
    cases hcn : classNameOfLine (trimSpaceTab x) with
    | none =>
      dsimp only
      rw [ih rest (k + 1) hrest, List.length_cons]
      congr 1
      omega
    | some n =>
      dsimp only
      have hnb : (n != base) = false := by
        have hbq : (n == base) = true := by
          simp only [lineNotOffending, hcn] at hx
          exact hx
        simp [bne, hbq]
      rw [if_neg (by simp [hnb])]
      rw [ih rest (k + 1) hrest, List.length_cons]
      congr 1
      omega

/-- C3 (amended): BadClassName reports only the first offending class
declaration line: when every line before position j is non-offending and
line j declares a class name different from the expected one, the result is
exactly the single diagnostic for line j; later offending lines are not
reported. -/
theorem claim_c3_first_offender_only (path s name lo : Str) (lines pre post : List Str)
    (hblen : 3 ≤ (goBase path).length)
    (hsplit : lines = pre ++ lo :: post)
    (hpre : ∀ x ∈ pre, lineNotOffending (expectedClassName path) x = true)
    (hl : classNameOfLine (trimSpaceTab lo) = some name)
    (hname : name ≠ expectedClassName path) :
    ruleCheckBadClassName ⟨path, s, lines⟩ =
      some (fileAndLineError path (pre.length + 1)
        ("Class name ".toList ++ name ++ " should be ".toList ++
          expectedClassName path ++ " instead".toList)) := by
  subst hsplit
  have hcs : (".cs".toList).length = 3 := rfl
  simp only [ruleCheckBadClassName, hcs]
  rw [if_neg (by omega)]
  have hbase : (goBase path).take ((goBase path).length - 3) = expectedClassName path := by
    rw [expectedClassName, hcs]
  rw [hbase]
  rw [badClassNameLoop_skip path (expectedClassName path) pre (lo :: post) 0 hpre]
  simp only [badClassNameLoop]
  rw [hl]
  dsimp only
  have hnb : (name != expectedClassName path) = true := bne_iff_ne.mpr hname
  rw [if_pos hnb]
  rw [Nat.zero_add]

/-- Witness for the amended BadClassName claim: in `Widget.cs`, a correct
declaration on line 1 and offending declarations on lines 2 and 3 produce
exactly the diagnostic for line 2. -/
theorem claim_c3_witness :
    ruleCheckBadClassName ⟨("/d/Widget.cs".toList), [],
        [("public class Widget".toList), ("class A".toList), ("class B".toList)]⟩ =
      some (fileAndLineError ("/d/Widget.cs".toList) 2
        ("Class name ".toList ++ ("A".toList) ++ " should be ".toList ++
          expectedClassName ("/d/Widget.cs".toList) ++ " instead".toList)) := by
  exact claim_c3_first_offender_only ("/d/Widget.cs".toList) [] ("A".toList)
    ("class A".toList)
    [("public class Widget".toList), ("class A".toList), ("class B".toList)]
    [("public class Widget".toList)] [("class B".toList)]
    (by decide) rfl (by decide) (by decide) (by decide)

/-- `hasSuffixStr` agrees with the suffix relation on lists. -/
theorem hasSuffixStr_iff (s suff : Str) : hasSuffixStr s suff = true ↔ suff <:+ s := by
  rw [hasSuffixStr, Bool.and_eq_true, decide_eq_true_eq, beq_iff_eq]
  constructor
  · intro ⟨_, heq⟩
    rw [← heq]
    exact List.drop_suffix _ _
  · intro h
    obtain ⟨t, ht⟩ := h
    have hlen : suff.length ≤ s.length := by
      rw [← ht]
      simp
    refine ⟨hlen, ?_⟩
    rw [← ht]
    have : (t ++ suff).length - suff.length = t.length := by
      simp
    rw [this, List.drop_left]

/-- A list is never a suffix of itself with one extra element in front. -/
theorem cons_not_suffix_self (c : Char) (l : Str) : ¬ ((c :: l) <:+ l) := by
  intro h
  have := h.length_le
  simp at this

theorem isPrefixOf_append_self (a b : Str) : a.isPrefixOf (a ++ b) = true := by
  induction a with
  | nil => simp [List.isPrefixOf]
  | cons c a ih => simp [List.isPrefixOf, ih]

/-- C10: a declaration line `namespace N` passes BadNameSpace iff `"." + N`
is a suffix of the derived path namespace `D`; declaring `N = D` itself
always fails, since `"." + D` is one character longer than `D`. -/
theorem claim_c10_namespace_suffix (path s D N line : Str)
    (hD : getFilePathAsNameSpace path = some D)
    (hline : trimSpaceTab line = ("namespace ".toList) ++ N) :
    (ruleCheckBadNameSpace ⟨path, s, [line]⟩ = some [] ↔ ('.' :: N) <:+ D) ∧
    (ruleCheckBadNameSpace ⟨path, s, [line]⟩ = some [] ∨
      ruleCheckBadNameSpace ⟨path, s, [line]⟩ =
        some (fileAndLineError path 1
          ("Namespace ".toList ++ N ++ " is not a suffix of ".toList ++ D))) ∧
    (N = D → ruleCheckBadNameSpace ⟨path, s, [line]⟩ =
      some (fileAndLineError path 1
        ("Namespace ".toList ++ D ++ " is not a suffix of ".toList ++ D))) := by
  have hres : ruleCheckBadNameSpace ⟨path, s, [line]⟩ =
      (if !hasSuffixStr D ('.' :: N) then
        some (fileAndLineError path 1
          ("Namespace ".toList ++ N ++ " is not a suffix of ".toList ++ D))
      else some []) := by
    show badNameSpaceLoop path (getFilePathAsNameSpace path) 0 [line] = _
    rw [hD]
    simp only [badNameSpaceLoop, hline]
    rw [if_pos (isPrefixOf_append_self ("namespace ".toList) N)]
    rw [List.drop_left]
  refine ⟨?_, ?_, ?_⟩
  · rw [hres]
    cases hs : hasSuffixStr D ('.' :: N) with
    | true =>
      simp only [Bool.not_true, Bool.false_eq_true, if_false]
      constructor
      · intro _
        exact (hasSuffixStr_iff D ('.' :: N)).mp hs
      · intro _
        trivial
    | false =>
      simp only [Bool.not_false, if_true]
      constructor
      · intro hcontra
        exfalso
        have := Option.some.inj hcontra
        have hne : fileAndLineError path 1
            ("Namespace ".toList ++ N ++ " is not a suffix of ".toList ++ D) ≠ [] := by
          simp [fileAndLineError]
        exact hne this
      · intro hsuf
        have htr := (hasSuffixStr_iff D ('.' :: N)).mpr hsuf
        rw [hs] at htr
        cases htr
  · rw [hres]
    cases hs : hasSuffixStr D ('.' :: N) with
    | true =>
      left
      simp
    | false =>
      right
      simp
  · intro hND
    rw [hND] at hres
    have hsf : hasSuffixStr D ('.' :: D) = false := by
      cases hs : hasSuffixStr D ('.' :: D) with
      | false => rfl
      | true =>
        exfalso
        exact cons_not_suffix_self '.' D ((hasSuffixStr_iff _ _).mp hs)
    rw [hres, hsf]
    simp

/-- Witness for the BadNameSpace claim: for path `/a/b/C.cs` (derived
namespace `a.b`) the line `namespace b` passes and `namespace a.b` fails. -/
theorem claim_c10_witness :
    ruleCheckBadNameSpace ⟨("/a/b/C.cs".toList), [], [("namespace b".toList)]⟩ =
      some [] ∧
    ruleCheckBadNameSpace ⟨("/a/b/C.cs".toList), [], [("namespace a.b".toList)]⟩ =
      some (fileAndLineError ("/a/b/C.cs".toList) 1
        ("Namespace ".toList ++ ("a.b".toList) ++ " is not a suffix of ".toList ++
          ("a.b".toList))) := by
  constructor
  · exact (claim_c10_namespace_suffix ("/a/b/C.cs".toList) [] ("a.b".toList)
      ("b".toList) ("namespace b".toList) (by decide) (by decide)).1.mpr
      ⟨("a".toList), by decide⟩
  · exact (claim_c10_namespace_suffix ("/a/b/C.cs".toList) [] ("a.b".toList)
      ("a.b".toList) ("namespace a.b".toList) (by decide) (by decide)).2.2 rfl

theorem runRulesLoop_invoked_applicable (filePath : Str) (contents : List Nat)
    (fileExtension : Str) (isBinary : Bool) (rules : List Rule) :
    ∀ st : RunSt, (∀ r ∈ st.invoked, ruleApplicable r fileExtension isBinary = true) →
    ∀ r ∈ (runRulesLoop filePath contents fileExtension isBinary st rules).invoked,
      ruleApplicable r fileExtension isBinary = true := by
  induction rules with
  | nil =>
    intro st h r hr
    exact h r hr
  | cons r0 rest ih =>
    intro st h r hr
    simp only [runRulesLoop] at hr
    by_cases h1 : (r0.fileExtensions != [] &&
        !(stringArrayContains r0.fileExtensions fileExtension)) = true
    · rw [if_pos h1] at hr
      exact ih st h r hr
    · rw [if_neg h1] at hr
      by_cases h2 : (isBinary && (r0.fileTypeFlags &&& flagBinaryFile == 0)) = true
      · rw [if_pos h2] at hr
        exact ih st h r hr
      · rw [if_neg h2] at hr
        by_cases h3 : (!isBinary && (r0.fileTypeFlags &&& flagTextFile == 0)) = true
        · rw [if_pos h3] at hr
          exact ih st h r hr
        · rw [if_neg h3] at hr
          have happ : ruleApplicable r0 fileExtension isBinary = true := by
            have e1 := Bool.eq_false_iff.mpr h1
            have e2 := Bool.eq_false_iff.mpr h2
            have e3 := Bool.eq_false_iff.mpr h3
            simp only [ruleApplicable, e1, e2, e3]
            rfl
          set st1 := (if !st.fileLoaded then
              { st with
                fileAsString := bytesToStr contents
                fileAsLines := convertStringToLines (bytesToStr contents)
                fileLoaded := true
                loadCount := st.loadCount + 1 }
            else st) with hst1def
          have hst1inv : st1.invoked = st.invoked := by
            rw [hst1def]
            split <;> rfl
          cases hc : r0.checkFunc ⟨filePath, st1.fileAsString, st1.fileAsLines⟩ with
          | none =>
            rw [hc] at hr
            dsimp only at hr
            rw [hst1inv] at hr
            rcases List.mem_append.mp hr with hmem | hmem
            · exact h r hmem
            · rw [List.mem_singleton.mp hmem]
              exact happ
          | some msg =>
            rw [hc] at hr
            dsimp only at hr
            refine ih _ ?_ r hr
            intro r2 hr2
            dsimp only at hr2
            rw [hst1inv] at hr2
            rcases List.mem_append.mp hr2 with hmem | hmem
            · exact h r2 hmem
            · rw [List.mem_singleton.mp hmem]
              exact happ

theorem runRulesLoop_loadCount_loaded (filePath : Str) (contents : List Nat)
    (fileExtension : Str) (isBinary : Bool) (rules : List Rule) :
    ∀ st : RunSt, st.fileLoaded = true →
      (runRulesLoop filePath contents fileExtension isBinary st rules).loadCount =
        st.loadCount := by
  induction rules with
  | nil =>
    intro st _
    rfl
  | cons r0 rest ih =>
    intro st h
    simp only [runRulesLoop]
    by_cases h1 : (r0.fileExtensions != [] &&
        !(stringArrayContains r0.fileExtensions fileExtension)) = true
    · rw [if_pos h1]
      exact ih st h
    · rw [if_neg h1]
      by_cases h2 : (isBinary && (r0.fileTypeFlags &&& flagBinaryFile == 0)) = true
      · rw [if_pos h2]
        exact ih st h
      · rw [if_neg h2]
        by_cases h3 : (!isBinary && (r0.fileTypeFlags &&& flagTextFile == 0)) = true
        · rw [if_pos h3]
          exact ih st h
        · rw [if_neg h3]
          rw [h]
          simp only [Bool.not_true, Bool.false_eq_true, if_false]
          cases hc : r0.checkFunc ⟨filePath, st.fileAsString, st.fileAsLines⟩ with
          | none =>
            rfl
          | some msg =>
            exact ih _ h

theorem runRulesLoop_loadCount (filePath : Str) (contents : List Nat)
    (fileExtension : Str) (isBinary : Bool) (rules : List Rule) :
    ∀ st : RunSt, st.fileLoaded = false →
      (runRulesLoop filePath contents fileExtension isBinary st rules).loadCount =
        st.loadCount +
          (if rules.any (fun r => ruleApplicable r fileExtension isBinary) then 1 else 0) := by
  induction rules with
  | nil =>
    intro st _
    simp [runRulesLoop]
  | cons r0 rest ih =>
    intro st h
    simp only [runRulesLoop]
    by_cases h1 : (r0.fileExtensions != [] &&
        !(stringArrayContains r0.fileExtensions fileExtension)) = true
    · rw [if_pos h1]
      have happf : ruleApplicable r0 fileExtension isBinary = false := by
        simp only [ruleApplicable, h1]
        rfl
      rw [List.any_cons, happf, Bool.false_or]
      exact ih st h
    · rw [if_neg h1]
      by_cases h2 : (isBinary && (r0.fileTypeFlags &&& flagBinaryFile == 0)) = true
      · rw [if_pos h2]
        have happf : ruleApplicable r0 fileExtension isBinary = false := by
          simp only [ruleApplicable, h2]
          simp
        rw [List.any_cons, happf, Bool.false_or]
        exact ih st h
      · rw [if_neg h2]
        by_cases h3 : (!isBinary && (r0.fileTypeFlags &&& flagTextFile == 0)) = true
        · rw [if_pos h3]
          have happf : ruleApplicable r0 fileExtension isBinary = false := by
            simp only [ruleApplicable, h3]
            simp
          rw [List.any_cons, happf, Bool.false_or]
          exact ih st h
        · rw [if_neg h3]
          have happ : ruleApplicable r0 fileExtension isBinary = true := by
            have e1 := Bool.eq_false_iff.mpr h1
            have e2 := Bool.eq_false_iff.mpr h2
            have e3 := Bool.eq_false_iff.mpr h3
            simp only [ruleApplicable, e1, e2, e3]
            rfl
          rw [h]
          simp only [Bool.not_false, if_true]
          rw [List.any_cons, happ, Bool.true_or, if_pos rfl]
          cases hc : r0.checkFunc ⟨filePath,
              ({ st with
                fileAsString := bytesToStr contents
                fileAsLines := convertStringToLines (bytesToStr contents)
                fileLoaded := true
                loadCount := st.loadCount + 1 } : RunSt).fileAsString,
              ({ st with
                fileAsString := bytesToStr contents
                fileAsLines := convertStringToLines (bytesToStr contents)
                fileLoaded := true
                loadCount := st.loadCount + 1 } : RunSt).fileAsLines⟩ with
          | none =>
            rfl
          | some msg =>
            exact runRulesLoop_loadCount_loaded filePath contents fileExtension isBinary
              rest _ rfl

/-- Unfolding of the three skip tests: a rule is applicable to a file iff its
extension list is empty or holds the file's extension, and its type flags
allow the file content class. -/
theorem ruleApplicable_true_iff (r : Rule) (ext : Str) (b : Bool) :
    ruleApplicable r ext b = true ↔
      ((r.fileExtensions = [] ∨ ext ∈ r.fileExtensions) ∧
        (if b then r.fileTypeFlags &&& flagBinaryFile ≠ 0
          else r.fileTypeFlags &&& flagTextFile ≠ 0)) := by
  have hmem : stringArrayContains r.fileExtensions ext = true ↔ ext ∈ r.fileExtensions := by
    simp only [stringArrayContains, List.any_eq_true, beq_iff_eq]
    constructor
    · rintro ⟨x, hx, rfl⟩
      exact hx
    · intro hx
      exact ⟨ext, hx, rfl⟩
  cases b <;> by_cases hext : r.fileExtensions = [] <;>
    simp [ruleApplicable, hext, hmem]

/-- C7: a rule's check predicate is invoked on a file only if the rule's
extension set is empty or holds the file's extension, and the file's
text/binary classification is allowed by the rule's type flags. -/
theorem claim_c7_filters_gate_invocation (canon : Str → Str) (rules : List Rule)
    (f : CandidateFile) :
    ∀ r ∈ (runRulesOnFile canon rules f).invoked,
      (r.fileExtensions = [] ∨ goExt f.path ∈ r.fileExtensions) ∧
      (if isBinaryFile f then r.fileTypeFlags &&& flagBinaryFile ≠ 0
        else r.fileTypeFlags &&& flagTextFile ≠ 0) := by
  intro r hr
  have happ : ruleApplicable r (goExt f.path) (isBinaryFile f) = true := by
    refine runRulesLoop_invoked_applicable (canon f.path) f.contents (goExt f.path)
      (isBinaryFile f) rules ⟨false, [], [], 0, [], [], false⟩ ?_ r hr
    intro r2 hr2
    cases hr2
  exact (ruleApplicable_true_iff r (goExt f.path) (isBinaryFile f)).mp happ

/-- A text-applicable, extension-unrestricted rule used to witness that the
dispatch loop does invoke applicable rules. -/
def demoRule : Rule :=
  { name := ("DoNothing".toList), argument := [], fileTypeFlags := flagTextFile,
    fileExtensions := [], checkFunc := ruleCheckDoNothing }

/-- A 50-byte text file (no control bytes), so the classifier calls it text. -/
def demoFile : CandidateFile :=
  { path := ("/x/a.cs".toList), contents := List.replicate 50 97 }

theorem claim_c7_witness :
    (demoRule.fileExtensions = [] ∨ goExt demoFile.path ∈ demoRule.fileExtensions) ∧
    (if isBinaryFile demoFile then demoRule.fileTypeFlags &&& flagBinaryFile ≠ 0
      else demoRule.fileTypeFlags &&& flagTextFile ≠ 0) := by
  have hmem : demoRule ∈ (runRulesOnFile id [demoRule] demoFile).invoked := by
    have h : (runRulesOnFile id [demoRule] demoFile).invoked = [demoRule] := rfl
    rw [h]
    exact List.mem_singleton.mpr rfl
  exact claim_c7_filters_gate_invocation id [demoRule] demoFile demoRule hmem

/-- C8: during the evaluation of one candidate file the content is loaded
exactly once if some rule passes both filters and zero times otherwise — in
particular at most once — and the outer loop is one such evaluation per file. -/
theorem claim_c8_load_at_most_once (canon : Str → Str) (rules : List Rule)
    (f : CandidateFile) (files : List CandidateFile) :
    (runRulesOnFile canon rules f).loadCount =
      (if rules.any (fun r => ruleApplicable r (goExt f.path) (isBinaryFile f)) then 1
        else 0) ∧
    (runRulesOnFile canon rules f).loadCount ≤ 1 ∧
    runRulesOnFiles canon rules files = files.map (runRulesOnFile canon rules) := by
  have h := runRulesLoop_loadCount (canon f.path) f.contents (goExt f.path)
    (isBinaryFile f) rules ⟨false, [], [], 0, [], [], false⟩ rfl
  have h0 : (runRulesOnFile canon rules f).loadCount =
      (if rules.any (fun r => ruleApplicable r (goExt f.path) (isBinaryFile f)) then 1
        else 0) := by
    rw [show (runRulesOnFile canon rules f) =
      runRulesLoop (canon f.path) f.contents (goExt f.path) (isBinaryFile f)
        ⟨false, [], [], 0, [], [], false⟩ rules from rfl]
    rw [h]
    simp
  refine ⟨h0, ?_, rfl⟩
  rw [h0]
  split <;> omega
